import Mathlib

/-!
Verification development for the ACL Data Channel subsystem of the
pw_bluetooth_proxy component (src/pw_bluetooth_proxy/acl_data_channel.cc).

The definitions below are a shallow embedding of that source file:
uint16 fields are modelled as Nat (arithmetic on the guarded paths never
wraps; where the C++ can wrap, e.g. the uint16 truncation of
`4 + pdu_length`, the model takes the value mod 2^16 explicitly), byte
spans are `List Nat`, fallible code returns `Option`, and `PW_CHECK`
aborts are modelled by an `Option` result of the enclosing operation
(`none` = process abort).  External collaborators (the emboss packet
views, the L2CAP channel manager, the multibuf allocator) appear as
pre-parsed inputs and as function-valued environment parameters.
-/

namespace AclProxy

/-- Subset of pw::Status codes surfaced by the ACL data channel. -/
inductive Status where
  | ok
  | invalidArgument
  | notFound
  | resourceExhausted
  | failedPrecondition
  | outOfRange
deriving DecidableEq, Repr

/-- AclTransportType: BR/EDR or LE.  Each value selects one of the two
independent credit pools. -/
inductive AclTransportType where
  | brEdr
  | le
deriving DecidableEq, Repr

/-- Direction of an ACL data frame through the proxy
(AclDataChannel::Direction). -/
inductive Direction where
  | fromController
  | fromHost
deriving DecidableEq, Repr

/-- ACL packet boundary flag (2-bit HCI field).  `otherFlag` stands for
the remaining enum value handled by the `default` branch of the source. -/
inductive BoundaryFlag where
  | firstNonFlushable
  | continuingFragment
  | firstFlushable
  | otherFlag
deriving DecidableEq, Repr

/-- AclDataChannel::Credits: one credit pool per transport.
All three fields are uint16 in the source. -/
structure Credits where
  to_reserve : Nat
  proxy_max : Nat
  proxy_pending : Nat
deriving DecidableEq, Repr

/-- Credits::Reset: zeroes `proxy_max_` and `proxy_pending_`. -/
def Credits.Reset (c : Credits) : Credits :=
  { c with proxy_max := 0, proxy_pending := 0 }

/-- Modelled from the spec: Credits::Available is a header-only accessor not
in the source slice; the spec states `Available() = proxy_max − proxy_pending`
with `proxy_pending ≤ proxy_max` as an invariant. -/
def Credits.Available (c : Credits) : Nat := c.proxy_max - c.proxy_pending

/-- Credits::Reserve.  The `PW_CHECK(!Initialized())` abort (Initialized ⇔
`proxy_max > 0`) is modelled by returning `none`.  On success returns the
updated pool and `host_max = controller_max - proxy_max`, which the caller
writes back into the event. -/
def Credits.Reserve (c : Credits) (controller_max : Nat) : Option (Credits × Nat) :=
  if c.proxy_max ≠ 0 then none
  else
    let new_proxy_max := min controller_max c.to_reserve
    some ({ c with proxy_max := new_proxy_max }, controller_max - new_proxy_max)

/-- Credits::MarkPending: `none` models Status::ResourceExhausted. -/
def Credits.MarkPending (c : Credits) (num_credits : Nat) : Option Credits :=
  if num_credits > c.Available then none
  else some { c with proxy_pending := c.proxy_pending + num_credits }

/-- Credits::MarkCompleted: decrements `proxy_pending_`, clamping at zero
(over-completion is logged and clamped in the source). -/
def Credits.MarkCompleted (c : Credits) (num_credits : Nat) : Credits :=
  if num_credits > c.proxy_pending then { c with proxy_pending := 0 }
  else { c with proxy_pending := c.proxy_pending - num_credits }

/-- AclDataChannel::SendCredit: `live = true` models a non-null
`relinquish_fn_` (the credit still owes a release). -/
structure SendCredit where
  transport : AclTransportType
  live : Bool
deriving DecidableEq, Repr

/-- SendCredit move construction/assignment: the destination takes over the
source's transport and release obligation; the source's `relinquish_fn_`
becomes null (inert). Returns (destination, source-after-move). -/
def SendCredit.moveFrom (c : SendCredit) : SendCredit × SendCredit :=
  ({ transport := c.transport, live := c.live },
   { transport := c.transport, live := false })

/-- MultiBufWriter accumulating recombination bytes.  Modelled from the spec:
the writer type itself is external to the source slice; the spec gives
`target_size`, `written` (here `data.length`) and the contiguous storage
(here `data`). -/
structure MultiBufWriter where
  target_size : Nat
  data : List Nat
deriving DecidableEq, Repr

/-- Modelled from the spec: MultiBufWriter::Write appends and fails with
OutOfRange (here `none`) if `written + len(data) > target_size`. -/
def MultiBufWriter.writeData (w : MultiBufWriter) (d : List Nat) : Option MultiBufWriter :=
  if w.data.length + d.length > w.target_size then none
  else some { w with data := w.data ++ d }

/-- Modelled from the spec: MultiBufWriter::IsComplete ⇔ written = target. -/
def MultiBufWriter.IsComplete (w : MultiBufWriter) : Bool :=
  w.data.length == w.target_size

/-- Modelled from the spec: MultiBufWriter::TakeMultiBuf yields the completed
contiguous buffer. -/
def MultiBufWriter.TakeMultiBuf (w : MultiBufWriter) : List Nat := w.data

/-- AclDataChannel::AclConnection.  The two recombination slots are indexed
by Direction in the source (`recombination_buffers_[2]`). The signaling
channel members are external and not modelled. -/
structure AclConnection where
  transport : AclTransportType
  connection_handle : Nat
  num_pending_packets : Nat
  recomb_from_controller : Option MultiBufWriter
  recomb_from_host : Option MultiBufWriter
deriving DecidableEq, Repr

/-- Read the recombination slot for a direction
(`recombination_buffers_[to_underlying(direction)]`). -/
def AclConnection.getRecomb (c : AclConnection) : Direction → Option MultiBufWriter
  | .fromController => c.recomb_from_controller
  | .fromHost => c.recomb_from_host

/-- Write the recombination slot for a direction. -/
def AclConnection.setRecomb (c : AclConnection) (dir : Direction)
    (v : Option MultiBufWriter) : AclConnection :=
  match dir with
  | .fromController => { c with recomb_from_controller := v }
  | .fromHost => { c with recomb_from_host := v }

/-- AclConnection::RecombinationActive ⇔ the slot holds a buffer. -/
def AclConnection.RecombinationActive (c : AclConnection) (dir : Direction) : Bool :=
  (c.getRecomb dir).isSome

/-- AclConnection::EndRecombination: clears the slot (idempotent). -/
def AclConnection.EndRecombination (c : AclConnection) (dir : Direction) : AclConnection :=
  c.setRecomb dir none

/-- AclConnection::StartRecombination.  FailedPrecondition if the slot is
already active; otherwise MultiBufWriter::Create with the channel's
allocator (modelled as a `canAlloc` predicate over the requested size,
failing with the allocator's status — represented by ResourceExhausted). -/
def AclConnection.StartRecombination (c : AclConnection) (dir : Direction)
    (canAlloc : Nat → Bool) (size : Nat) : Status × AclConnection :=
  if (c.getRecomb dir).isSome then (.failedPrecondition, c)
  else if canAlloc size then (.ok, c.setRecomb dir (some ⟨size, []⟩))
  else (.resourceExhausted, c)

/-- AclConnection::RecombineFragment.  `(none, _)` models a non-ok Result
(no active slot → FailedPrecondition; write overflow → OutOfRange, leaving
the slot as it was).  `(some [], _)` is the empty MultiBuf meaning "more
fragments expected" (slot updated); a complete recombination takes the
buffer and ends recombination. -/
def AclConnection.RecombineFragment (c : AclConnection) (dir : Direction)
    (data : List Nat) : Option (List Nat) × AclConnection :=
  match c.getRecomb dir with
  | none => (none, c)
  | some w =>
    match w.writeData data with
    | none => (none, c)
    | some w' =>
      if w'.IsComplete then (some w'.TakeMultiBuf, c.EndRecombination dir)
      else (some [], c.setRecomb dir (some w'))

/-- External L2CAP channel as seen by the ACL data channel: an optional rx
multibuf allocator (modelled by its contiguous-allocation predicate) and the
two PDU handlers returning "consumed". -/
structure L2capChannel where
  rx_allocator : Option (Nat → Bool)
  handlePduFromController : List Nat → Bool
  handlePduFromHost : List Nat → Bool

/-- External L2capChannelManager channel registry. -/
structure L2capEnv where
  findChannelByLocalCid : Nat → Nat → Option L2capChannel
  findChannelByRemoteCid : Nat → Nat → Option L2capChannel

/-- The `find_l2cap_channel` lambda of HandleAclData: FromController looks
up by local CID, FromHost by remote CID. -/
def findL2capChannel (env : L2capEnv) (dir : Direction) (handle cid : Nat) :
    Option L2capChannel :=
  match dir with
  | .fromController => env.findChannelByLocalCid handle cid
  | .fromHost => env.findChannelByRemoteCid handle cid

/-- emboss::BasicL2capHeaderView over a byte span: Ok iff at least 4 bytes;
yields (pdu_length, channel_id), both 16-bit little-endian. -/
def parseBasicL2capHeader : List Nat → Option (Nat × Nat)
  | b0 :: b1 :: b2 :: b3 :: _ => some (b0 + 256 * b1, b2 + 256 * b3)
  | _ => none

/-- AclDataChannel state: the two credit pools and the connection table. -/
structure AclDataChannel where
  br_edr_credits : Credits
  le_credits : Credits
  acl_connections : List AclConnection
deriving DecidableEq, Repr

/-- AclDataChannel::LookupCredits. -/
def AclDataChannel.lookupCredits (s : AclDataChannel) : AclTransportType → Credits
  | .brEdr => s.br_edr_credits
  | .le => s.le_credits

/-- Store back the credit pool selected by a transport. -/
def AclDataChannel.setCredits (s : AclDataChannel) (t : AclTransportType)
    (c : Credits) : AclDataChannel :=
  match t with
  | .brEdr => { s with br_edr_credits := c }
  | .le => { s with le_credits := c }

/-- AclDataChannel::FindAclConnection: first connection whose handle
matches (containers::FindIf). -/
def FindAclConnection : List AclConnection → Nat → Option AclConnection
  | [], _ => none
  | c :: cs, h => if c.connection_handle = h then some c else FindAclConnection cs h

/-- Replace the first connection matching a handle (models mutation through
the pointer returned by FindAclConnection). -/
def replaceConn (h : Nat) (c' : AclConnection) : List AclConnection → List AclConnection
  | [] => []
  | c :: cs => if c.connection_handle = h then c' :: cs else c :: replaceConn h c' cs

/-- Erase the first connection matching a handle (`acl_connections_.erase`). -/
def eraseFirstConn (h : Nat) : List AclConnection → List AclConnection
  | [] => []
  | c :: cs => if c.connection_handle = h then cs else c :: eraseFirstConn h cs

/-- Update the connection found for a handle. -/
def AclDataChannel.withConn (s : AclDataChannel) (h : Nat) (c' : AclConnection) :
    AclDataChannel :=
  { s with acl_connections := replaceConn h c' s.acl_connections }

/-- AclDataChannel::Reset. -/
def AclDataChannel.ResetChannel (s : AclDataChannel) : AclDataChannel :=
  { br_edr_credits := s.br_edr_credits.Reset,
    le_credits := s.le_credits.Reset,
    acl_connections := [] }

/-- AclDataChannel::ReserveSendCredit: MarkPending(1) on the transport's
pool; on success hands out a live SendCredit bound to that transport. -/
def ReserveSendCredit (s : AclDataChannel) (t : AclTransportType) :
    Option SendCredit × AclDataChannel :=
  match (s.lookupCredits t).MarkPending 1 with
  | none => (none, s)
  | some c => (some { transport := t, live := true }, s.setCredits t c)

/-- SendCredit::~SendCredit: destroying a live credit runs the relinquish
hook, which re-acquires the lock and calls MarkCompleted(1) on the
transport's pool; a consumed or moved-from credit releases nothing. -/
def SendCredit.dropCredit (credit : SendCredit) (s : AclDataChannel) : AclDataChannel :=
  if credit.live then
    s.setCredits credit.transport ((s.lookupCredits credit.transport).MarkCompleted 1)
  else s

/-- AclDataChannel::SendAcl.  `acl_header` is the result of the emboss
AclDataFrameHeader parse (carrying the connection handle; `none` =
malformed).  Returns `none` for the `PW_CHECK` abort inside
SendCredit::MarkUsed (credit already consumed); otherwise the status, the
post-call channel state, the credit after the call, and whether the packet
was forwarded to the controller. -/
def SendAcl (s : AclDataChannel) (acl_header : Option Nat) (credit : SendCredit) :
    Option (Status × AclDataChannel × SendCredit × Bool) :=
  match acl_header with
  | none => some (.invalidArgument, s, credit, false)
  | some handle =>
    match FindAclConnection s.acl_connections handle with
    | none => some (.notFound, s, credit, false)
    | some conn =>
      if conn.transport ≠ credit.transport then some (.invalidArgument, s, credit, false)
      else if credit.live then
        some (.ok,
          s.withConn handle { conn with num_pending_packets := conn.num_pending_packets + 1 },
          { credit with live := false }, true)
      else none

/-- Result of the NUMBER_OF_COMPLETED_PACKETS processing loop. -/
structure NocpOut where
  state : AclDataChannel
  pairs : List (Nat × Nat)
  should_send_to_host : Bool
  did_reclaim_credits : Bool
deriving DecidableEq, Repr

/-- The per-pair loop of AclDataChannel::HandleNumberOfCompletedPacketsEvent,
over the event's (connection_handle, num_completed_packets) pairs.
Zero-count pairs are skipped; unknown handles force forwarding; tracked
handles reclaim `min(count, num_pending_packets)` from the pool and the
connection and are rewritten in place to the residual. -/
def nocpLoop (s : AclDataChannel) : List (Nat × Nat) → NocpOut
  | [] => ⟨s, [], false, false⟩
  | (handle, cnt) :: rest =>
    if cnt = 0 then
      let r := nocpLoop s rest
      ⟨r.state, (handle, cnt) :: r.pairs, r.should_send_to_host, r.did_reclaim_credits⟩
    else
      match FindAclConnection s.acl_connections handle with
      | none =>
        let r := nocpLoop s rest
        ⟨r.state, (handle, cnt) :: r.pairs, true, r.did_reclaim_credits⟩
      | some conn =>
        let np := conn.num_pending_packets
        let reclaimed := min cnt np
        let s1 := s.setCredits conn.transport
            ((s.lookupCredits conn.transport).MarkCompleted reclaimed)
        let s2 := s1.withConn handle { conn with num_pending_packets := np - reclaimed }
        let residual := cnt - reclaimed
        let r := nocpLoop s2 rest
        ⟨r.state, (handle, residual) :: r.pairs,
          decide (0 < residual) || r.should_send_to_host,
          decide (0 < reclaimed) || r.did_reclaim_credits⟩

/-- Result of HandleNumberOfCompletedPacketsEvent: the channel state, the
(possibly rewritten) event, and whether the event was sent to the host. -/
structure NocpEventOut where
  state : AclDataChannel
  event : Option (List (Nat × Nat))
  sent_to_host : Bool
deriving DecidableEq, Repr

/-- AclDataChannel::HandleNumberOfCompletedPacketsEvent.  The event is the
emboss parse result (`none` = buffer too small, forwarded unprocessed). -/
def HandleNumberOfCompletedPacketsEvent (s : AclDataChannel)
    (ev : Option (List (Nat × Nat))) : NocpEventOut :=
  match ev with
  | none => ⟨s, none, true⟩
  | some pairs =>
    let r := nocpLoop s pairs
    ⟨r.state, some r.pairs, r.should_send_to_host⟩

/-- AclDataChannel::ProcessDisconnectionCompleteEvent.  The event is the
parse result carrying (connection_handle, status == SUCCESS).  The Bool
output records whether L2capChannelManager::HandleDisconnectionComplete
was invoked. -/
def ProcessDisconnectionCompleteEvent (s : AclDataChannel)
    (ev : Option (Nat × Bool)) : AclDataChannel × Bool :=
  match ev with
  | none => (s, false)
  | some (conn_handle, success) =>
    match FindAclConnection s.acl_connections conn_handle with
    | none => (s, false)
    | some conn =>
      if success then
        let s1 := if 0 < conn.num_pending_packets then
            s.setCredits conn.transport
              ((s.lookupCredits conn.transport).MarkCompleted conn.num_pending_packets)
          else s
        ({ s1 with acl_connections := eraseFirstConn conn_handle s1.acl_connections }, true)
      else (s, false)

/-- AclDataChannel::ProcessReadBufferSizeCommandCompleteEvent: reads
`total_num_acl_data_packets`, reserves on the BR/EDR pool, and rewrites the
field to the returned host_max.  `none` models the PW_CHECK abort on
re-reservation. -/
def ProcessReadBufferSizeCommandCompleteEvent (s : AclDataChannel)
    (total_num_acl_data_packets : Nat) : Option (AclDataChannel × Nat) :=
  match s.br_edr_credits.Reserve total_num_acl_data_packets with
  | none => none
  | some (c, host_max) => some ({ s with br_edr_credits := c }, host_max)

/-- ACL data frame as consumed by HandleAclData: handle, boundary flag and
payload bytes (the emboss payload span, whose size equals
`data_total_length`). -/
structure AclFrame where
  handle : Nat
  boundary : BoundaryFlag
  payload : List Nat
deriving DecidableEq, Repr

/-- Outcome of the lock-held classification part of HandleAclData: either
an early return with a handled/unhandled verdict, or a PDU to deliver to
the L2CAP channel after the lock is released. -/
inductive ClassifyResult where
  | ret (handled : Bool) (conn : AclConnection)
  | deliver (is_fragment : Bool) (conn : AclConnection) (l2cap_pdu : List Nat)
deriving DecidableEq, Repr

/-- Connection state carried by a classification outcome. -/
def ClassifyResult.conn : ClassifyResult → AclConnection
  | .ret _ c => c
  | .deliver _ c _ => c

/-- The shared fragment-recombination block of HandleAclData: recombine the
payload; on error end recombination and consume (drop); on the empty
MultiBuf consume and await more fragments; on completion deliver the
recombined PDU. -/
def recombineStep (conn : AclConnection) (dir : Direction) (payload : List Nat) :
    ClassifyResult :=
  match conn.RecombineFragment dir payload with
  | (none, c) => .ret true (c.EndRecombination dir)
  | (some [], c) => .ret true c
  | (some (b :: bs), c) => .deliver true c (b :: bs)

/-- The FIRST_NON_FLUSHABLE / FIRST_FLUSHABLE branch of HandleAclData,
after any stale recombination has been dropped: parse the basic L2CAP
header (forward if too short), look up the channel (forward if
unrecognized), then classify by `l2cap_frame_length` — the uint16 sum of
the 4-byte header size and `pdu_length` — against the ACL payload size. -/
def classifyFirst (env : L2capEnv) (dir : Direction) (acl : AclFrame)
    (conn : AclConnection) : ClassifyResult :=
  match parseBasicL2capHeader acl.payload with
  | none => .ret false conn
  | some (pdu_length, channel_id) =>
    match findL2capChannel env dir acl.handle channel_id with
    | none => .ret false conn
    | some channel =>
      let acl_payload_size := acl.payload.length
      let l2cap_frame_length := (4 + pdu_length) % 65536
      if l2cap_frame_length < acl_payload_size then .ret true conn
      else if l2cap_frame_length = acl_payload_size then .deliver false conn acl.payload
      else
        match channel.rx_allocator with
        | none => .ret false conn
        | some canAlloc =>
          match conn.StartRecombination dir canAlloc l2cap_frame_length with
          | (.ok, c2) => recombineStep c2 dir acl.payload
          | (_, c2) => .ret false c2

/-- The lock-held classification of HandleAclData, switching on the
boundary flag. -/
def classify (env : L2capEnv) (dir : Direction) (acl : AclFrame)
    (conn : AclConnection) : ClassifyResult :=
  match acl.boundary with
  | .continuingFragment =>
    if conn.RecombinationActive dir then recombineStep conn dir acl.payload
    else .ret false conn
  | .firstNonFlushable =>
    classifyFirst env dir acl
      (if conn.RecombinationActive dir then conn.EndRecombination dir else conn)
  | .firstFlushable =>
    classifyFirst env dir acl
      (if conn.RecombinationActive dir then conn.EndRecombination dir else conn)
  | .otherFlag => .ret false conn

/-- The post-lock part of HandleAclData: store the updated connection,
re-parse the L2CAP header of the PDU (`none` models the PW_CHECK abort),
find the channel again, dispatch the PDU, and for a rejected recombined
fragment consume anyway (never forward only the last fragment). -/
def finishAclData (env : L2capEnv) (dir : Direction) (s : AclDataChannel)
    (handle : Nat) : ClassifyResult → Option (Bool × AclDataChannel)
  | .ret handled c => some (handled, s.withConn handle c)
  | .deliver is_fragment c pdu =>
    let s1 := s.withConn handle c
    match parseBasicL2capHeader pdu with
    | none => none
    | some (_, channel_id) =>
      match findL2capChannel env dir handle channel_id with
      | none => some (false, s1)
      | some channel =>
        let result := match dir with
          | .fromController => channel.handlePduFromController pdu
          | .fromHost => channel.handlePduFromHost pdu
        if is_fragment && !result then some (true, s1) else some (result, s1)

/-- AclDataChannel::HandleAclData.  Returns `some (handled, state)` where
`handled = true` means the frame was consumed by the proxy and must not be
forwarded; `none` models a PW_CHECK abort. -/
def HandleAclData (env : L2capEnv) (dir : Direction) (acl : AclFrame)
    (s : AclDataChannel) : Option (Bool × AclDataChannel) :=
  match FindAclConnection s.acl_connections acl.handle with
  | none => some (false, s)
  | some conn => finishAclData env dir s acl.handle (classify env dir acl conn)

/-- Operations of the credit-conservation state machine (claim C1): the
client-visible sequence of ReserveSendCredit, SendAcl, SendCredit drops,
and the two credit-releasing HCI events. -/
inductive Op where
  | reserve (t : AclTransportType)
  | dropAt (i : Nat)
  | send (acl_header : Option Nat) (i : Nat)
  | nocp (ev : Option (List (Nat × Nat)))
  | disconnect (ev : Option (Nat × Bool))
deriving DecidableEq, Repr

/-- System state for the machine: the channel plus the transports of the
outstanding live SendCredits held by clients. -/
structure Sys where
  chan : AclDataChannel
  credits : List AclTransportType
deriving DecidableEq, Repr

/-- List index lookup used by the machine. -/
def listGet? : List α → Nat → Option α
  | [], _ => none
  | a :: _, 0 => some a
  | _ :: as, n + 1 => listGet? as n

/-- Remove a list element by index. -/
def removeAt : List α → Nat → List α
  | [], _ => []
  | _ :: as, 0 => as
  | a :: as, n + 1 => a :: removeAt as n

/-- One step of the machine.  `reserve` may hand the client a credit;
`dropAt`/`send` act on a held credit by index; a successful send consumes
the credit, a failed send leaves it with the client. -/
def stepOp (sys : Sys) : Op → Sys
  | .reserve t =>
    match ReserveSendCredit sys.chan t with
    | (none, s) => ⟨s, sys.credits⟩
    | (some _, s) => ⟨s, t :: sys.credits⟩
  | .dropAt i =>
    match listGet? sys.credits i with
    | none => sys
    | some t => ⟨SendCredit.dropCredit ⟨t, true⟩ sys.chan, removeAt sys.credits i⟩
  | .send hdr i =>
    match listGet? sys.credits i with
    | none => sys
    | some t =>
      match SendAcl sys.chan hdr ⟨t, true⟩ with
      | none => sys
      | some (st, s, _, _) =>
        if st = .ok then ⟨s, removeAt sys.credits i⟩ else ⟨s, sys.credits⟩
  | .nocp ev => ⟨(HandleNumberOfCompletedPacketsEvent sys.chan ev).state, sys.credits⟩
  | .disconnect ev => ⟨(ProcessDisconnectionCompleteEvent sys.chan ev).1, sys.credits⟩

/-- Run a sequence of operations. -/
def runOps (sys : Sys) : List Op → Sys
  | [] => sys
  | op :: ops => runOps (stepOp sys op) ops

/-- Sum of `num_pending_packets` over the connections of one transport. -/
def sumPending (T : AclTransportType) : List AclConnection → Nat
  | [] => 0
  | c :: cs => (if c.transport = T then c.num_pending_packets else 0) + sumPending T cs

/-- Number of outstanding live credits for one transport. -/
def countT (T : AclTransportType) : List AclTransportType → Nat
  | [] => 0
  | t :: ts => (if t = T then 1 else 0) + countT T ts

/-- Credit conservation invariant (amended form): per transport, pending
packets on connections plus outstanding live credits equal the pool's
`proxy_pending`. -/
def CreditInvariant (sys : Sys) : Prop :=
  ∀ T, sumPending T sys.chan.acl_connections + countT T sys.credits =
    (sys.chan.lookupCredits T).proxy_pending

/-- View of a connection without its recombination slots (transport,
handle, pending count) — used to state frame conditions. -/
def stripConn (c : AclConnection) : AclTransportType × Nat × Nat :=
  (c.transport, c.connection_handle, c.num_pending_packets)

/-- Sample channel: reserved pools (BR/EDR 4, LE 2) and one idle BR/EDR
connection with handle 1. -/
def sampleChan : AclDataChannel :=
  ⟨⟨4, 4, 0⟩, ⟨2, 2, 0⟩, [⟨.brEdr, 1, 0, none, none⟩]⟩

/-- Sample system state for the operation machine. -/
def sysSample : Sys := ⟨sampleChan, []⟩

/-- Sample channel before reservation (scenario S1: to_reserve BR/EDR 4). -/
def resvChan : AclDataChannel := ⟨⟨4, 0, 0⟩, ⟨2, 0, 0⟩, []⟩

/-- Sample channel with a BR/EDR connection (handle 3) holding 2 pending
packets, matching the pool's proxy_pending. -/
def pendChan : AclDataChannel :=
  ⟨⟨4, 4, 2⟩, ⟨2, 2, 0⟩, [⟨.brEdr, 3, 2, none, none⟩]⟩

/-- Sample partially-filled recombination writer: target 24 bytes, holding
the 4-byte L2CAP header (pdu_length 20, channel_id 65). -/
def sampleWriter : MultiBufWriter := ⟨24, [20, 0, 65, 0]⟩

/-- Sample LE connection (handle 7) with an active from-controller
recombination. -/
def fragConn : AclConnection := ⟨.le, 7, 0, some sampleWriter, none⟩

/-- Sample channel state holding `fragConn`. -/
def fragChan : AclDataChannel := ⟨⟨0, 0, 0⟩, ⟨2, 2, 0⟩, [fragConn]⟩

/-- Sample channel state with the LE connection (handle 7) idle. -/
def firstChan : AclDataChannel := ⟨⟨0, 0, 0⟩, ⟨2, 2, 0⟩, [⟨.le, 7, 0, none, none⟩]⟩

/-- Sample L2CAP channel that accepts every PDU and can allocate. -/
def sampleL2capChannel : L2capChannel :=
  ⟨some (fun _ => true), fun _ => true, fun _ => true⟩

/-- Sample registry: local CID 65 on handle 7 is recognized. -/
def sampleEnv : L2capEnv :=
  ⟨fun h cid => if h = 7 ∧ cid = 65 then some sampleL2capChannel else none,
   fun _ _ => none⟩

/-- Registry with no channels. -/
def emptyEnv : L2capEnv := ⟨fun _ _ => none, fun _ _ => none⟩

/-! ## Basic lemmas about credits and state helpers -/

theorem Credits.MarkCompleted_eq (c : Credits) (n : Nat) :
    c.MarkCompleted n = { c with proxy_pending := c.proxy_pending - n } := by
  unfold Credits.MarkCompleted
  split
  · have h : c.proxy_pending - n = 0 := by omega
    rw [h]
  · rfl

theorem Credits.MarkPending_some (c : Credits) (n : Nat) (h : n ≤ c.Available) :
    c.MarkPending n = some { c with proxy_pending := c.proxy_pending + n } := by
  unfold Credits.MarkPending
  rw [if_neg (by omega)]

theorem lookup_setCredits_same (s : AclDataChannel) (t : AclTransportType) (c : Credits) :
    (s.setCredits t c).lookupCredits t = c := by
  cases t <;> rfl

theorem lookup_setCredits_other (s : AclDataChannel) (t t' : AclTransportType)
    (c : Credits) (h : t ≠ t') : (s.setCredits t c).lookupCredits t' = s.lookupCredits t' := by
  cases t <;> cases t' <;> first | rfl | exact absurd rfl h

theorem conns_setCredits (s : AclDataChannel) (t : AclTransportType) (c : Credits) :
    (s.setCredits t c).acl_connections = s.acl_connections := by
  cases t <;> rfl

theorem conns_withConn (s : AclDataChannel) (h : Nat) (c : AclConnection) :
    (s.withConn h c).acl_connections = replaceConn h c s.acl_connections := rfl

theorem lookup_withConn (s : AclDataChannel) (h : Nat) (c : AclConnection)
    (t : AclTransportType) : (s.withConn h c).lookupCredits t = s.lookupCredits t := by
  cases t <;> rfl

/-! ## Lemmas about the connection table -/

theorem FindAclConnection_handle :
    ∀ (l : List AclConnection) (h : Nat) (c : AclConnection),
      FindAclConnection l h = some c → c.connection_handle = h := by
  intro l h c hf
  induction l with
  | nil => simp [FindAclConnection] at hf
  | cons a as ih =>
    by_cases ha : a.connection_handle = h
    · simp [FindAclConnection, ha] at hf
      rw [← hf]
      exact ha
    · simp [FindAclConnection, ha] at hf
      exact ih hf

theorem replaceConn_self :
    ∀ (l : List AclConnection) (h : Nat) (c : AclConnection),
      FindAclConnection l h = some c → replaceConn h c l = l := by
  intro l h c hf
  induction l with
  | nil => rfl
  | cons a as ih =>
    by_cases ha : a.connection_handle = h
    · have hf2 : a = c := by simpa [FindAclConnection, ha] using hf
      subst hf2
      simp [replaceConn, ha]
    · simp [FindAclConnection, ha] at hf
      simp [replaceConn, ha, ih hf]

theorem withConn_self (s : AclDataChannel) (h : Nat) (c : AclConnection)
    (hf : FindAclConnection s.acl_connections h = some c) : s.withConn h c = s := by
  unfold AclDataChannel.withConn
  rw [replaceConn_self s.acl_connections h c hf]

theorem FindAclConnection_replaceConn :
    ∀ (l : List AclConnection) (h : Nat) (c c' : AclConnection),
      FindAclConnection l h = some c → c'.connection_handle = h →
      FindAclConnection (replaceConn h c' l) h = some c' := by
  intro l h c c' hf hc'
  induction l with
  | nil => simp [FindAclConnection] at hf
  | cons a as ih =>
    by_cases ha : a.connection_handle = h
    · simp [replaceConn, ha, FindAclConnection, hc']
    · simp [FindAclConnection, ha] at hf
      simp [replaceConn, ha, FindAclConnection, ih hf]

theorem replaceConn_replaceConn :
    ∀ (l : List AclConnection) (h : Nat) (c1 c2 : AclConnection),
      c1.connection_handle = h →
      replaceConn h c2 (replaceConn h c1 l) = replaceConn h c2 l := by
  intro l h c1 c2 hc1
  induction l with
  | nil => rfl
  | cons a as ih =>
    by_cases ha : a.connection_handle = h
    · simp [replaceConn, ha, hc1]
    · simp [replaceConn, ha, ih]

theorem withConn_withConn (s : AclDataChannel) (h : Nat) (c1 c2 : AclConnection)
    (hc1 : c1.connection_handle = h) :
    (s.withConn h c1).withConn h c2 = s.withConn h c2 := by
  unfold AclDataChannel.withConn
  simp [replaceConn_replaceConn s.acl_connections h c1 c2 hc1]

/-! ## Lemmas about pending-packet sums and credit counts -/

theorem sumPending_replaceConn (T : AclTransportType) :
    ∀ (l : List AclConnection) (h : Nat) (c c' : AclConnection),
      FindAclConnection l h = some c →
      sumPending T (replaceConn h c' l)
          + (if c.transport = T then c.num_pending_packets else 0)
        = sumPending T l + (if c'.transport = T then c'.num_pending_packets else 0) := by
  intro l h c c' hf
  induction l with
  | nil => simp [FindAclConnection] at hf
  | cons a as ih =>
    by_cases ha : a.connection_handle = h
    · have hf2 : a = c := by simpa [FindAclConnection, ha] using hf
      subst hf2
      simp only [replaceConn, ha, if_pos, sumPending]
      omega
    · simp [FindAclConnection, ha] at hf
      simp only [replaceConn, ha, if_neg, ite_false, sumPending]
      have := ih hf
      omega

theorem contrib_le_sumPending (T : AclTransportType) :
    ∀ (l : List AclConnection) (h : Nat) (c : AclConnection),
      FindAclConnection l h = some c →
      (if c.transport = T then c.num_pending_packets else 0) ≤ sumPending T l := by
  intro l h c hf
  induction l with
  | nil => simp [FindAclConnection] at hf
  | cons a as ih =>
    by_cases ha : a.connection_handle = h
    · have hf2 : a = c := by simpa [FindAclConnection, ha] using hf
      subst hf2
      simp only [sumPending]
      omega
    · simp [FindAclConnection, ha] at hf
      have := ih hf
      simp only [sumPending]
      omega

theorem sumPending_eraseFirstConn (T : AclTransportType) :
    ∀ (l : List AclConnection) (h : Nat) (c : AclConnection),
      FindAclConnection l h = some c →
      sumPending T (eraseFirstConn h l)
          + (if c.transport = T then c.num_pending_packets else 0)
        = sumPending T l := by
  intro l h c hf
  induction l with
  | nil => simp [FindAclConnection] at hf
  | cons a as ih =>
    by_cases ha : a.connection_handle = h
    · have hf2 : a = c := by simpa [FindAclConnection, ha] using hf
      subst hf2
      simp only [eraseFirstConn, ha, if_pos, sumPending]
      omega
    · simp [FindAclConnection, ha] at hf
      simp only [eraseFirstConn, ha, ite_false, sumPending]
      have := ih hf
      omega

theorem countT_removeAt (T : AclTransportType) :
    ∀ (l : List AclTransportType) (i : Nat) (t : AclTransportType),
      listGet? l i = some t →
      countT T l = countT T (removeAt l i) + (if t = T then 1 else 0) := by
  intro l
  induction l with
  | nil => intro i t hg; simp [listGet?] at hg
  | cons a as ih =>
    intro i t hg
    cases i with
    | zero =>
      simp [listGet?] at hg
      subst hg
      simp [removeAt, countT]
      omega
    | succ n =>
      simp only [listGet?] at hg
      simp only [removeAt, countT]
      have := ih n t hg
      omega

theorem countT_pos (T : AclTransportType) :
    ∀ (l : List AclTransportType) (i : Nat),
      listGet? l i = some T → 0 < countT T l := by
  intro l
  induction l with
  | nil => intro i hg; simp [listGet?] at hg
  | cons a as ih =>
    intro i hg
    cases i with
    | zero =>
      simp [listGet?] at hg
      subst hg
      simp [countT]
    | succ n =>
      simp only [listGet?] at hg
      have := ih n hg
      simp only [countT]
      omega

theorem transport_updatePending (c : AclConnection) (np : Nat) :
    ({ c with num_pending_packets := np } : AclConnection).transport = c.transport := rfl

theorem handle_updatePending (c : AclConnection) (np : Nat) :
    ({ c with num_pending_packets := np } : AclConnection).connection_handle
      = c.connection_handle := rfl

theorem pending_updatePending (c : AclConnection) (np : Nat) :
    ({ c with num_pending_packets := np } : AclConnection).num_pending_packets = np := rfl

theorem lookup_connsUpdate (s : AclDataChannel) (l : List AclConnection)
    (T : AclTransportType) :
    ({ s with acl_connections := l } : AclDataChannel).lookupCredits T
      = s.lookupCredits T := by
  cases T <;> rfl

/-! ## Behavior lemmas for SendAcl -/

theorem SendAcl_parse_fail (s : AclDataChannel) (credit : SendCredit) :
    SendAcl s none credit = some (.invalidArgument, s, credit, false) := rfl

theorem SendAcl_notFound (s : AclDataChannel) (handle : Nat) (credit : SendCredit)
    (hf : FindAclConnection s.acl_connections handle = none) :
    SendAcl s (some handle) credit = some (.notFound, s, credit, false) := by
  simp [SendAcl, hf]

theorem SendAcl_mismatch (s : AclDataChannel) (handle : Nat) (conn : AclConnection)
    (credit : SendCredit)
    (hf : FindAclConnection s.acl_connections handle = some conn)
    (ht : conn.transport ≠ credit.transport) :
    SendAcl s (some handle) credit = some (.invalidArgument, s, credit, false) := by
  simp [SendAcl, hf, ht]

theorem SendAcl_ok (s : AclDataChannel) (handle : Nat) (conn : AclConnection)
    (credit : SendCredit)
    (hf : FindAclConnection s.acl_connections handle = some conn)
    (ht : conn.transport = credit.transport) (hl : credit.live = true) :
    SendAcl s (some handle) credit
      = some (.ok,
          s.withConn handle { conn with num_pending_packets := conn.num_pending_packets + 1 },
          { credit with live := false }, true) := by
  simp [SendAcl, hf, ht, hl]

/-! ## Preservation of the credit invariant -/

theorem nocpLoop_invariant :
    ∀ (pairs : List (Nat × Nat)) (s : AclDataChannel) (credits : List AclTransportType),
      (∀ T, sumPending T s.acl_connections + countT T credits
        = (s.lookupCredits T).proxy_pending) →
      ∀ T, sumPending T (nocpLoop s pairs).state.acl_connections + countT T credits
        = ((nocpLoop s pairs).state.lookupCredits T).proxy_pending := by
  intro pairs
  induction pairs with
  | nil => intro s credits h T; simpa [nocpLoop] using h T
  | cons p rest ih =>
    intro s credits h T
    obtain ⟨hd, cnt⟩ := p
    by_cases hc : cnt = 0
    · simp only [nocpLoop, hc, if_pos]
      exact ih s credits h T
    · simp only [nocpLoop, hc, ite_false]
      cases hfc : FindAclConnection s.acl_connections hd with
      | none => exact ih s credits h T
      | some conn =>
        refine ih _ credits ?_ T
        intro T'
        rw [conns_withConn, conns_setCredits, lookup_withConn]
        have hmin : min cnt conn.num_pending_packets ≤ conn.num_pending_packets :=
          Nat.min_le_right _ _
        have hsum := sumPending_replaceConn T' s.acl_connections hd conn
          { conn with num_pending_packets :=
              conn.num_pending_packets - min cnt conn.num_pending_packets } hfc
        have hle := contrib_le_sumPending T' s.acl_connections hd conn hfc
        have hinv := h T'
        by_cases hT : conn.transport = T'
        · subst hT
          rw [lookup_setCredits_same, Credits.MarkCompleted_eq]
          simp only [transport_updatePending, pending_updatePending, eq_self_iff_true,
            if_true] at hsum hle
          try dsimp only at *
          omega
        · rw [lookup_setCredits_other _ _ _ _ hT]
          simp only [transport_updatePending, if_neg hT] at hsum hle
          try dsimp only at *
          omega

theorem creditInvariant_stepOp (sys : Sys) (op : Op) (h : CreditInvariant sys) :
    CreditInvariant (stepOp sys op) := by
  cases op with
  | reserve t =>
    cases hmp : (sys.chan.lookupCredits t).MarkPending 1 with
    | none => simp only [stepOp, ReserveSendCredit, hmp]; exact h
    | some c =>
      simp only [stepOp, ReserveSendCredit, hmp]
      intro T
      rw [conns_setCredits]
      unfold Credits.MarkPending at hmp
      split at hmp
      · exact absurd hmp (by simp)
      · have hc : c = { sys.chan.lookupCredits t with
            proxy_pending := (sys.chan.lookupCredits t).proxy_pending + 1 } :=
          (Option.some.inj hmp).symm
        subst hc
        simp only [countT]
        have hinv := h T
        by_cases hT : t = T
        · subst hT
          rw [lookup_setCredits_same]
          simp only [eq_self_iff_true, if_true]
          try dsimp only at *
          omega
        · rw [lookup_setCredits_other _ _ _ _ hT]
          simp only [if_neg hT]
          try dsimp only at *
          omega
  | dropAt i =>
    cases hg : listGet? sys.credits i with
    | none => simp only [stepOp, hg]; exact h
    | some t =>
      simp only [stepOp, hg, SendCredit.dropCredit, if_true]
      intro T
      rw [conns_setCredits]
      have hcnt := countT_removeAt T sys.credits i t hg
      have hinv := h T
      by_cases hT : t = T
      · subst hT
        rw [lookup_setCredits_same, Credits.MarkCompleted_eq]
        simp only [eq_self_iff_true, if_true] at hcnt
        try dsimp only at *
        omega
      · rw [lookup_setCredits_other _ _ _ _ hT]
        simp only [if_neg hT] at hcnt
        try dsimp only at *
        omega
  | send hdr i =>
    cases hg : listGet? sys.credits i with
    | none => simp only [stepOp, hg]; exact h
    | some t =>
      cases hdr with
      | none =>
        simp only [stepOp, hg, SendAcl_parse_fail]
        exact h
      | some handle =>
        cases hfc : FindAclConnection sys.chan.acl_connections handle with
        | none =>
          simp only [stepOp, hg, SendAcl_notFound sys.chan handle ⟨t, true⟩ hfc]
          exact h
        | some conn =>
          by_cases ht : conn.transport = t
          · simp only [stepOp, hg, SendAcl_ok sys.chan handle conn ⟨t, true⟩ hfc ht rfl,
              eq_self_iff_true, if_true]
            intro T
            rw [conns_withConn, lookup_withConn]
            have hsum := sumPending_replaceConn T sys.chan.acl_connections handle conn
              { conn with num_pending_packets := conn.num_pending_packets + 1 } hfc
            have hcnt := countT_removeAt T sys.credits i t hg
            have hinv := h T
            by_cases hT : conn.transport = T
            · have htT : t = T := by rw [← ht, hT]
              subst htT
              simp only [transport_updatePending, pending_updatePending, if_pos ht] at hsum
              simp only [eq_self_iff_true, if_true] at hcnt
              try dsimp only at *
              omega
            · have htT : ¬t = T := fun hh => hT (ht.trans hh)
              simp only [transport_updatePending, if_neg hT] at hsum
              simp only [if_neg htT] at hcnt
              try dsimp only at *
              omega
          · simp only [stepOp, hg, SendAcl_mismatch sys.chan handle conn ⟨t, true⟩ hfc ht]
            exact h
  | nocp ev =>
    cases ev with
    | none => exact h
    | some pairs =>
      simp only [stepOp, HandleNumberOfCompletedPacketsEvent]
      exact fun T => nocpLoop_invariant pairs sys.chan sys.credits h T
  | disconnect ev =>
    cases ev with
    | none => exact h
    | some p =>
      obtain ⟨hd, success⟩ := p
      cases hfc : FindAclConnection sys.chan.acl_connections hd with
      | none => simp only [stepOp, ProcessDisconnectionCompleteEvent, hfc]; exact h
      | some conn =>
        cases success with
        | false =>
          simp only [stepOp, ProcessDisconnectionCompleteEvent, hfc]
          exact h
        | true =>
          simp only [stepOp, ProcessDisconnectionCompleteEvent, hfc, if_true]
          intro T
          have hle := contrib_le_sumPending T sys.chan.acl_connections hd conn hfc
          have hinv := h T
          by_cases hnp : 0 < conn.num_pending_packets
          · rw [if_pos hnp]
            show sumPending T (eraseFirstConn hd
                (sys.chan.setCredits conn.transport
                  ((sys.chan.lookupCredits conn.transport).MarkCompleted
                    conn.num_pending_packets)).acl_connections) + countT T sys.credits
              = ((sys.chan.setCredits conn.transport
                  ((sys.chan.lookupCredits conn.transport).MarkCompleted
                    conn.num_pending_packets)).lookupCredits T).proxy_pending
            have hsum := sumPending_eraseFirstConn T
              (sys.chan.setCredits conn.transport
                ((sys.chan.lookupCredits conn.transport).MarkCompleted
                  conn.num_pending_packets)).acl_connections hd conn
              (by rw [conns_setCredits]; exact hfc)
            rw [conns_setCredits] at hsum
            rw [conns_setCredits]
            by_cases hT : conn.transport = T
            · subst hT
              rw [lookup_setCredits_same, Credits.MarkCompleted_eq]
              simp only [eq_self_iff_true, if_true] at hsum hle
              try dsimp only at *
              omega
            · rw [lookup_setCredits_other _ _ _ _ hT]
              simp only [if_neg hT] at hsum hle
              try dsimp only at *
              omega
          · rw [if_neg hnp]
            show sumPending T (eraseFirstConn hd sys.chan.acl_connections)
                + countT T sys.credits = (sys.chan.lookupCredits T).proxy_pending
            have hsum := sumPending_eraseFirstConn T sys.chan.acl_connections hd conn hfc
            have hnp0 : conn.num_pending_packets = 0 := by omega
            by_cases hT : conn.transport = T
            · simp only [if_pos hT, hnp0] at hsum
              try dsimp only at *
              omega
            · simp only [if_neg hT] at hsum
              try dsimp only at *
              omega

theorem creditInvariant_runOps :
    ∀ (ops : List Op) (sys : Sys), CreditInvariant sys → CreditInvariant (runOps sys ops) := by
  intro ops
  induction ops with
  | nil => intro sys h; exact h
  | cons op rest ih =>
    intro sys h
    exact ih (stepOp sys op) (creditInvariant_stepOp sys op h)

/-! ## Lemmas for reserve/drop round trips -/

theorem runOps_append :
    ∀ (a b : List Op) (sys : Sys), runOps sys (a ++ b) = runOps (runOps sys a) b := by
  intro a
  induction a with
  | nil => intro b sys; rfl
  | cons op rest ih =>
    intro b sys
    simp only [List.cons_append, runOps]
    exact ih b (stepOp sys op)

theorem runOps_reserveN (n : Nat) :
    ∀ (sys : Sys) (t : AclTransportType) (k : Nat),
      (sys.chan.lookupCredits t).proxy_pending = k →
      k + n ≤ (sys.chan.lookupCredits t).proxy_max →
      (runOps sys (List.replicate n (Op.reserve t))).credits
          = List.replicate n t ++ sys.credits ∧
      ((runOps sys (List.replicate n (Op.reserve t))).chan.lookupCredits t).proxy_pending
          = k + n := by
  induction n with
  | zero =>
    intro sys t k hp hm
    exact ⟨by simp [runOps], by simpa [runOps] using hp⟩
  | succ n ih =>
    intro sys t k hp hm
    have hav : 1 ≤ (sys.chan.lookupCredits t).Available := by
      unfold Credits.Available
      omega
    have hstep : stepOp sys (Op.reserve t)
        = ⟨sys.chan.setCredits t
            { sys.chan.lookupCredits t with
              proxy_pending := (sys.chan.lookupCredits t).proxy_pending + 1 },
           t :: sys.credits⟩ := by
      simp only [stepOp, ReserveSendCredit, Credits.MarkPending_some _ _ hav]
    have hpend : ((stepOp sys (Op.reserve t)).chan.lookupCredits t).proxy_pending = k + 1 := by
      rw [hstep]
      dsimp only
      rw [lookup_setCredits_same]
      dsimp only
      omega
    have hmax : ((stepOp sys (Op.reserve t)).chan.lookupCredits t).proxy_max
        = (sys.chan.lookupCredits t).proxy_max := by
      rw [hstep]
      dsimp only
      rw [lookup_setCredits_same]
    have h2 := ih (stepOp sys (Op.reserve t)) t (k + 1) hpend (by rw [hmax]; omega)
    refine ⟨?_, ?_⟩
    · rw [List.replicate_succ]
      simp only [runOps]
      rw [h2.1, hstep]
      dsimp only
      rw [List.replicate_succ']
      simp [List.append_assoc]
    · rw [List.replicate_succ]
      simp only [runOps]
      rw [h2.2]
      omega

theorem runOps_dropAll (n : Nat) :
    ∀ (sys : Sys) (t : AclTransportType),
      sys.credits = List.replicate n t →
      (sys.chan.lookupCredits t).proxy_pending = n →
      ((runOps sys (List.replicate n (Op.dropAt 0))).chan.lookupCredits t).proxy_pending
        = 0 := by
  induction n with
  | zero => intro sys t hc hp; simpa [runOps] using hp
  | succ n ih =>
    intro sys t hc hp
    have hget : listGet? sys.credits 0 = some t := by
      rw [hc, List.replicate_succ]
      rfl
    have hstep : stepOp sys (Op.dropAt 0)
        = ⟨sys.chan.setCredits t ((sys.chan.lookupCredits t).MarkCompleted 1),
           removeAt sys.credits 0⟩ := by
      simp [stepOp, hget, SendCredit.dropCredit]
    have hcreds : (stepOp sys (Op.dropAt 0)).credits = List.replicate n t := by
      rw [hstep]
      dsimp only
      rw [hc, List.replicate_succ]
      rfl
    have hpend : ((stepOp sys (Op.dropAt 0)).chan.lookupCredits t).proxy_pending = n := by
      rw [hstep]
      dsimp only
      rw [lookup_setCredits_same, Credits.MarkCompleted_eq]
      dsimp only
      omega
    rw [List.replicate_succ]
    simp only [runOps]
    exact ih (stepOp sys (Op.dropAt 0)) t hcreds hpend

/-! ## Forwarding characterization of the completed-packets loop -/

theorem nocpLoop_send_iff :
    ∀ (pairs : List (Nat × Nat)) (s : AclDataChannel),
      (nocpLoop s pairs).should_send_to_host
        = (nocpLoop s pairs).pairs.any (fun p => decide (0 < p.2)) := by
  intro pairs
  induction pairs with
  | nil => intro s; rfl
  | cons p rest ih =>
    intro s
    obtain ⟨hd, cnt⟩ := p
    by_cases hc : cnt = 0
    · subst hc
      simp only [nocpLoop, eq_self_iff_true, if_true]
      rw [ih s]
      simp [List.any_cons]
    · simp only [nocpLoop, hc, ite_false]
      cases hfc : FindAclConnection s.acl_connections hd with
      | none =>
        simp [List.any_cons, Nat.pos_of_ne_zero hc]
      | some conn =>
        simp only [List.any_cons]
        rw [ih]

/-! ## Structural lemmas for HandleAclData -/

theorem parseBasicL2capHeader_append (a b : List Nat) (ha : 4 ≤ a.length) :
    parseBasicL2capHeader (a ++ b) = parseBasicL2capHeader a := by
  cases a with
  | nil => simp at ha
  | cons x0 a0 =>
    cases a0 with
    | nil => simp at ha
    | cons x1 a1 =>
      cases a1 with
      | nil => simp at ha
      | cons x2 a2 =>
        cases a2 with
        | nil => simp at ha
        | cons x3 a3 => rfl

theorem stripConn_setRecomb (c : AclConnection) (dir : Direction)
    (v : Option MultiBufWriter) : stripConn (c.setRecomb dir v) = stripConn c := by
  cases dir <;> rfl

theorem stripConn_EndRecombination (c : AclConnection) (dir : Direction) :
    stripConn (c.EndRecombination dir) = stripConn c :=
  stripConn_setRecomb c dir none

theorem handle_setRecomb (c : AclConnection) (dir : Direction)
    (v : Option MultiBufWriter) :
    (c.setRecomb dir v).connection_handle = c.connection_handle := by
  cases dir <;> rfl

theorem getRecomb_setRecomb_same (c : AclConnection) (dir : Direction)
    (v : Option MultiBufWriter) : (c.setRecomb dir v).getRecomb dir = v := by
  cases dir <;> rfl

theorem stripConn_StartRecombination (c : AclConnection) (dir : Direction)
    (canAlloc : Nat → Bool) (size : Nat) :
    stripConn (c.StartRecombination dir canAlloc size).2 = stripConn c := by
  unfold AclConnection.StartRecombination
  by_cases h1 : (c.getRecomb dir).isSome
  · simp [h1]
  · by_cases h2 : canAlloc size
    · simp [h1, h2, stripConn_setRecomb]
    · simp [h1, h2]

theorem stripConn_RecombineFragment (c : AclConnection) (dir : Direction)
    (d : List Nat) : stripConn (c.RecombineFragment dir d).2 = stripConn c := by
  unfold AclConnection.RecombineFragment
  cases hr : c.getRecomb dir with
  | none => rfl
  | some w =>
    dsimp only
    cases hw : w.writeData d with
    | none => simp only [hw]
    | some w2 =>
      simp only [hw]
      cases hcomp : w2.IsComplete with
      | false => simp [hcomp, stripConn_setRecomb]
      | true => simp [hcomp, stripConn_EndRecombination]

theorem recombineStep_conn (c : AclConnection) (dir : Direction) (d : List Nat) :
    stripConn ((recombineStep c dir d).conn) = stripConn c := by
  unfold recombineStep
  have hc := stripConn_RecombineFragment c dir d
  cases hr : c.RecombineFragment dir d with
  | mk o c2 =>
    rw [hr] at hc
    dsimp only at hc
    cases o with
    | none => simpa [ClassifyResult.conn, stripConn_EndRecombination] using hc
    | some l =>
      cases l with
      | nil => simpa [ClassifyResult.conn] using hc
      | cons b bs => simpa [ClassifyResult.conn] using hc

theorem classifyFirst_conn (env : L2capEnv) (dir : Direction) (acl : AclFrame)
    (c : AclConnection) :
    stripConn ((classifyFirst env dir acl c).conn) = stripConn c := by
  unfold classifyFirst
  cases hp : parseBasicL2capHeader acl.payload with
  | none => rfl
  | some pr =>
    obtain ⟨pl, cid⟩ := pr
    dsimp only
    cases hch : findL2capChannel env dir acl.handle cid with
    | none =>
      simp only [hch]
      rfl
    | some channel =>
      simp only [hch]
      by_cases h1 : (4 + pl) % 65536 < acl.payload.length
      · simp only [if_pos h1]
        rfl
      · simp only [if_neg h1]
        by_cases h2 : (4 + pl) % 65536 = acl.payload.length
        · simp only [if_pos h2]
          rfl
        · simp only [if_neg h2]
          cases hra : channel.rx_allocator with
          | none => rfl
          | some canAlloc =>
            try dsimp only
            have hs2 := stripConn_StartRecombination c dir canAlloc ((4 + pl) % 65536)
            rcases hs : c.StartRecombination dir canAlloc ((4 + pl) % 65536) with ⟨st, c2⟩
            rw [hs] at hs2
            dsimp only at hs2
            cases st with
            | ok => exact (recombineStep_conn c2 dir acl.payload).trans hs2
            | invalidArgument => exact hs2
            | notFound => exact hs2
            | resourceExhausted => exact hs2
            | failedPrecondition => exact hs2
            | outOfRange => exact hs2

theorem classify_conn (env : L2capEnv) (dir : Direction) (acl : AclFrame)
    (c : AclConnection) :
    stripConn ((classify env dir acl c).conn) = stripConn c := by
  unfold classify
  cases hb : acl.boundary with
  | continuingFragment =>
    by_cases ha : c.RecombinationActive dir
    · simp only [ha, if_true]
      exact recombineStep_conn c dir acl.payload
    · simp only [ha, if_false]
      rfl
  | firstNonFlushable =>
    rw [classifyFirst_conn]
    by_cases ha : c.RecombinationActive dir
    · simp [ha, stripConn_EndRecombination]
    · simp [ha]
  | firstFlushable =>
    rw [classifyFirst_conn]
    by_cases ha : c.RecombinationActive dir
    · simp [ha, stripConn_EndRecombination]
    · simp [ha]
  | otherFlag => rfl

theorem map_strip_replaceConn :
    ∀ (l : List AclConnection) (h : Nat) (c c2 : AclConnection),
      FindAclConnection l h = some c → stripConn c2 = stripConn c →
      (replaceConn h c2 l).map stripConn = l.map stripConn := by
  intro l h c c2 hf hs
  induction l with
  | nil => rfl
  | cons a as ih =>
    by_cases ha : a.connection_handle = h
    · have hf2 : a = c := by simpa [FindAclConnection, ha] using hf
      subst hf2
      simp [replaceConn, ha, hs]
    · simp [FindAclConnection, ha] at hf
      simp [replaceConn, ha, ih hf]

theorem exists_four_cons (l : List Nat) (h : 4 ≤ l.length) :
    ∃ b0 b1 b2 b3 t, l = b0 :: b1 :: b2 :: b3 :: t := by
  cases l with
  | nil => simp at h
  | cons x0 l0 =>
    cases l0 with
    | nil => simp at h
    | cons x1 l1 =>
      cases l1 with
      | nil => simp at h
      | cons x2 l2 =>
        cases l2 with
        | nil => simp at h
        | cons x3 l3 => exact ⟨x0, x1, x2, x3, l3, rfl⟩

/-! ## Claim theorems -/

/-- C1 (counterexample): the claimed identity "sum of num_pending_packets
over a transport equals that transport's proxy_pending after each
operation" fails for the one-operation sequence [ReserveSendCredit brEdr]
from a reserved, idle state: the reservation increments proxy_pending while
no connection holds a pending packet yet. -/
theorem credit_conservation_refuted :
    ¬ (sumPending .brEdr (runOps sysSample [Op.reserve .brEdr]).chan.acl_connections
        = ((runOps sysSample [Op.reserve .brEdr]).chan.lookupCredits .brEdr).proxy_pending) := by
  decide

/-- C1 (amended): for every sequence of ReserveSendCredit / SendAcl /
SendCredit drop / HandleNumberOfCompletedPacketsEvent /
ProcessDisconnectionCompleteEvent operations, and for each transport T, the
sum of num_pending_packets over the connections of T **plus the number of
outstanding live SendCredits for T** equals the pool's proxy_pending for T
after each operation, provided the identity holds initially. -/
theorem credit_conservation_with_live_credits (sys : Sys) (ops : List Op)
    (h : CreditInvariant sys) : CreditInvariant (runOps sys ops) :=
  creditInvariant_runOps ops sys h

/-- Witness for the amended C1 on a concrete three-operation run. -/
theorem credit_conservation_with_live_credits_witness :
    CreditInvariant (runOps sysSample
      [Op.reserve .brEdr, Op.send (some 1) 0, Op.nocp (some [(1, 1)])]) :=
  credit_conservation_with_live_credits sysSample _ (by intro T; cases T <;> rfl)

/-- C2 (counterexample): a pair with an unknown handle but zero count is
skipped by the loop, so the event is suppressed even though "some pair's
handle is unknown" — the claimed forwarding condition predicts forwarding. -/
theorem nocp_zero_count_unknown_handle_refutes :
    (HandleNumberOfCompletedPacketsEvent sampleChan (some [(99, 0)])).sent_to_host = false ∧
    FindAclConnection sampleChan.acl_connections 99 = none := by
  decide

/-- C2 (amended): HandleNumberOfCompletedPacketsEvent skips zero-count
pairs entirely; for every pair (handle, count) with count > 0 and a tracked
connection, the proxy reclaims min(count, num_pending_packets) credits
(decrementing that transport's proxy_pending and the connection's
num_pending_packets) and rewrites the pair in place to the residual; a
positive-count pair with an unknown handle forces forwarding; and the event
is forwarded if and only if some pair has a positive count after rewriting
(equivalently: some positive-count pair had an unknown handle or a
positive residual), being suppressed otherwise. -/
theorem nocp_reclaim_and_forwarding :
    (∀ (s : AclDataChannel) (pairs : List (Nat × Nat)),
      (HandleNumberOfCompletedPacketsEvent s (some pairs)).sent_to_host
        = (nocpLoop s pairs).pairs.any (fun p => decide (0 < p.2))) ∧
    (∀ (s : AclDataChannel) (h cnt : Nat) (conn : AclConnection), cnt ≠ 0 →
      FindAclConnection s.acl_connections h = some conn →
      nocpLoop s [(h, cnt)]
        = ⟨(s.setCredits conn.transport
              ((s.lookupCredits conn.transport).MarkCompleted
                (min cnt conn.num_pending_packets))).withConn h
              { conn with num_pending_packets :=
                  conn.num_pending_packets - min cnt conn.num_pending_packets },
            [(h, cnt - min cnt conn.num_pending_packets)],
            decide (0 < cnt - min cnt conn.num_pending_packets),
            decide (0 < min cnt conn.num_pending_packets)⟩) ∧
    (∀ (s : AclDataChannel) (h cnt : Nat) (rest : List (Nat × Nat)), cnt ≠ 0 →
      FindAclConnection s.acl_connections h = none →
      (nocpLoop s ((h, cnt) :: rest)).should_send_to_host = true) := by
  refine ⟨?_, ?_, ?_⟩
  · intro s pairs
    simpa [HandleNumberOfCompletedPacketsEvent] using nocpLoop_send_iff pairs s
  · intro s h cnt conn hcnt hf
    simp [nocpLoop, hcnt, hf]
  · intro s h cnt rest hcnt hf
    simp [nocpLoop, hcnt, hf]

/-- Witness for the amended C2: a positive-count pair on an unknown handle
forces forwarding. -/
theorem nocp_reclaim_and_forwarding_witness :
    (nocpLoop sampleChan [(99, 5)]).should_send_to_host = true :=
  nocp_reclaim_and_forwarding.2.2 sampleChan 99 5 [] (by decide) (by decide)

/-- C3: processing a Read Buffer Size Command Complete event on an
uninitialized BR/EDR pool sets proxy_max = min(controller_max, to_reserve)
and rewrites the event's total_num_acl_data_packets field to
host_max = controller_max − proxy_max, leaving everything else unchanged. -/
theorem read_buffer_size_reservation (s : AclDataChannel) (controller_max : Nat)
    (h : s.br_edr_credits.proxy_max = 0) :
    ∃ s2, ProcessReadBufferSizeCommandCompleteEvent s controller_max
        = some (s2, controller_max - min controller_max s.br_edr_credits.to_reserve) ∧
      s2.br_edr_credits.proxy_max = min controller_max s.br_edr_credits.to_reserve ∧
      s2.br_edr_credits.to_reserve = s.br_edr_credits.to_reserve ∧
      s2.br_edr_credits.proxy_pending = s.br_edr_credits.proxy_pending ∧
      s2.le_credits = s.le_credits ∧ s2.acl_connections = s.acl_connections := by
  refine ⟨{ s with br_edr_credits := { s.br_edr_credits with
      proxy_max := min controller_max s.br_edr_credits.to_reserve } },
    ?_, rfl, rfl, rfl, rfl, rfl⟩
  unfold ProcessReadBufferSizeCommandCompleteEvent Credits.Reserve
  rw [if_neg (by simp [h])]

/-- Witness for C3 (scenario S1): to_reserve = 4, controller_max = 10 gives
a rewritten event of 6 and proxy_max = 4. -/
theorem read_buffer_size_reservation_witness :
    ∃ s2, ProcessReadBufferSizeCommandCompleteEvent resvChan 10 = some (s2, 6) ∧
      s2.br_edr_credits.proxy_max = 4 := by
  obtain ⟨s2, h1, h2, -⟩ := read_buffer_size_reservation resvChan 10 rfl
  exact ⟨s2, by simpa [resvChan] using h1, by simpa [resvChan] using h2⟩

/-- C4: SendAcl returns InvalidArgument on a malformed header, NotFound on
an untracked handle, InvalidArgument (without consuming the credit, which
stays live and so auto-releases on drop) on a transport mismatch, and
otherwise consumes the credit, increments the connection's
num_pending_packets, forwards to the controller, and returns Ok; every
error return leaves the channel state and the credit untouched. -/
theorem sendAcl_status_spec (s : AclDataChannel) (credit : SendCredit) :
    (SendAcl s none credit = some (.invalidArgument, s, credit, false)) ∧
    (∀ handle, FindAclConnection s.acl_connections handle = none →
      SendAcl s (some handle) credit = some (.notFound, s, credit, false)) ∧
    (∀ handle conn, FindAclConnection s.acl_connections handle = some conn →
      conn.transport ≠ credit.transport →
      SendAcl s (some handle) credit = some (.invalidArgument, s, credit, false)) ∧
    (∀ handle conn, FindAclConnection s.acl_connections handle = some conn →
      conn.transport = credit.transport → credit.live = true →
      SendAcl s (some handle) credit
        = some (.ok,
            s.withConn handle
              { conn with num_pending_packets := conn.num_pending_packets + 1 },
            { credit with live := false }, true)) :=
  ⟨SendAcl_parse_fail s credit,
   fun handle hf => SendAcl_notFound s handle credit hf,
   fun handle conn hf ht => SendAcl_mismatch s handle conn credit hf ht,
   fun handle conn hf ht hl => SendAcl_ok s handle conn credit hf ht hl⟩

/-- Witness for C4: a successful send on the sample state. -/
theorem sendAcl_status_spec_witness :
    SendAcl sampleChan (some 1) ⟨.brEdr, true⟩
      = some (.ok, ⟨⟨4, 4, 0⟩, ⟨2, 2, 0⟩, [⟨.brEdr, 1, 1, none, none⟩]⟩,
          ⟨.brEdr, false⟩, true) := by
  have h := (sendAcl_status_spec sampleChan ⟨.brEdr, true⟩).2.2.2 1
    ⟨.brEdr, 1, 0, none, none⟩ (by decide) rfl rfl
  rw [h]
  decide

/-- C6: on a successfully parsed Disconnection Complete with SUCCESS status
for a tracked handle, the record is erased, the transport's proxy_pending
drops by exactly num_pending_packets (truncated subtraction = clamped at
zero), the other pool is untouched, and the L2CAP channel manager is
notified; a non-SUCCESS status leaves the state unchanged and does not
notify. -/
theorem disconnection_complete_spec (s : AclDataChannel) (h : Nat) (conn : AclConnection)
    (hf : FindAclConnection s.acl_connections h = some conn) :
    (ProcessDisconnectionCompleteEvent s (some (h, true))).2 = true ∧
    (ProcessDisconnectionCompleteEvent s (some (h, true))).1.acl_connections
      = eraseFirstConn h s.acl_connections ∧
    ((ProcessDisconnectionCompleteEvent s (some (h, true))).1.lookupCredits
        conn.transport).proxy_pending
      = (s.lookupCredits conn.transport).proxy_pending - conn.num_pending_packets ∧
    (∀ T, T ≠ conn.transport →
      (ProcessDisconnectionCompleteEvent s (some (h, true))).1.lookupCredits T
        = s.lookupCredits T) ∧
    ProcessDisconnectionCompleteEvent s (some (h, false)) = (s, false) := by
  by_cases hnp : 0 < conn.num_pending_packets
  · simp only [ProcessDisconnectionCompleteEvent, hf, if_true, if_pos hnp]
    refine ⟨by trivial, ?_, ?_, ?_, by trivial⟩
    · rw [conns_setCredits]
    · rw [lookup_connsUpdate, lookup_setCredits_same, Credits.MarkCompleted_eq]
    · intro T hT
      rw [lookup_connsUpdate, lookup_setCredits_other _ _ _ _ (fun e => hT e.symm)]
  · simp only [ProcessDisconnectionCompleteEvent, hf, if_true, if_neg hnp]
    have hnp0 : conn.num_pending_packets = 0 := by omega
    refine ⟨by trivial, by trivial, ?_, ?_, by trivial⟩
    · rw [lookup_connsUpdate, hnp0]
      omega
    · intro T hT
      rw [lookup_connsUpdate]

/-- Witness for C6: disconnecting handle 3 with 2 pending releases both
credits and notifies. -/
theorem disconnection_complete_spec_witness :
    ((ProcessDisconnectionCompleteEvent pendChan (some (3, true))).1.lookupCredits
        .brEdr).proxy_pending = 0 ∧
    (ProcessDisconnectionCompleteEvent pendChan (some (3, true))).2 = true := by
  have h := disconnection_complete_spec pendChan 3 ⟨.brEdr, 3, 2, none, none⟩ (by decide)
  exact ⟨by rw [h.2.2.1]; decide, h.1⟩

/-- C9: dropping an unconsumed SendCredit calls MarkCompleted(1) on its
transport's pool; reserving N credits from an idle pool and dropping all N
handles leaves proxy_pending = 0; a consumed (MarkUsed) or moved-from
credit releases nothing on destruction. -/
theorem credit_drop_round_trip (sys : Sys) (t : AclTransportType) (n : Nat)
    (hc : sys.credits = []) (hp : (sys.chan.lookupCredits t).proxy_pending = 0)
    (hn : n ≤ (sys.chan.lookupCredits t).proxy_max) :
    ((runOps sys (List.replicate n (Op.reserve t)
        ++ List.replicate n (Op.dropAt 0))).chan.lookupCredits t).proxy_pending = 0 ∧
    (∀ (t2 : AclTransportType) (s2 : AclDataChannel),
      SendCredit.dropCredit ⟨t2, true⟩ s2
        = s2.setCredits t2 ((s2.lookupCredits t2).MarkCompleted 1)) ∧
    (∀ (t2 : AclTransportType) (s2 : AclDataChannel),
      SendCredit.dropCredit ⟨t2, false⟩ s2 = s2) ∧
    (∀ (credit : SendCredit) (s2 : AclDataChannel),
      (SendCredit.moveFrom credit).2.live = false ∧
      SendCredit.dropCredit (SendCredit.moveFrom credit).2 s2 = s2) := by
  refine ⟨?_, fun t2 s2 => rfl, fun t2 s2 => rfl, fun credit s2 => ⟨rfl, rfl⟩⟩
  rw [runOps_append]
  have h1 := runOps_reserveN n sys t 0 hp (by omega)
  exact runOps_dropAll n (runOps sys (List.replicate n (Op.reserve t))) t
    (by rw [h1.1, hc]; simp) (by rw [h1.2]; omega)

/-- Witness for C9: three reserve/drop round trips on the sample system. -/
theorem credit_drop_round_trip_witness :
    ((runOps sysSample (List.replicate 3 (Op.reserve .brEdr)
        ++ List.replicate 3 (Op.dropAt 0))).chan.lookupCredits .brEdr).proxy_pending = 0 :=
  (credit_drop_round_trip sysSample .brEdr 3 rfl rfl (by decide)).1

/-- C10: HandleAclData never touches the credit pools, any connection's
num_pending_packets, or the membership of the connection table: whenever it
returns (the PW_CHECK abort aside), both pools are unchanged and the
connection list agrees with the input list on transport, handle, and
pending count — only recombination slots may differ. -/
theorem handleAclData_frame_condition (env : L2capEnv) (dir : Direction)
    (acl : AclFrame) (s : AclDataChannel) (b : Bool) (s2 : AclDataChannel)
    (hres : HandleAclData env dir acl s = some (b, s2)) :
    s2.br_edr_credits = s.br_edr_credits ∧ s2.le_credits = s.le_credits ∧
    s2.acl_connections.map stripConn = s.acl_connections.map stripConn := by
  unfold HandleAclData at hres
  cases hfc : FindAclConnection s.acl_connections acl.handle with
  | none =>
    rw [hfc] at hres
    simp only [Option.some.injEq, Prod.mk.injEq] at hres
    obtain ⟨-, hs2⟩ := hres
    subst hs2
    exact ⟨rfl, rfl, rfl⟩
  | some conn =>
    rw [hfc] at hres
    dsimp only at hres
    have hstrip := classify_conn env dir acl conn
    cases hcr : classify env dir acl conn with
    | ret hb c2 =>
      rw [hcr] at hres hstrip
      dsimp only [ClassifyResult.conn] at hstrip
      simp only [finishAclData, Option.some.injEq, Prod.mk.injEq] at hres
      obtain ⟨-, hs2⟩ := hres
      subst hs2
      exact ⟨rfl, rfl,
        map_strip_replaceConn s.acl_connections acl.handle conn c2 hfc hstrip⟩
    | deliver frag c2 pdu =>
      rw [hcr] at hres hstrip
      dsimp only [ClassifyResult.conn] at hstrip
      simp only [finishAclData] at hres
      cases hp : parseBasicL2capHeader pdu with
      | none =>
        rw [hp] at hres
        exact absurd hres (by simp)
      | some pr =>
        obtain ⟨pl, cid⟩ := pr
        rw [hp] at hres
        dsimp only at hres
        cases hch : findL2capChannel env dir acl.handle cid with
        | none =>
          rw [hch] at hres
          simp only [Option.some.injEq, Prod.mk.injEq] at hres
          obtain ⟨-, hs2⟩ := hres
          subst hs2
          exact ⟨rfl, rfl,
            map_strip_replaceConn s.acl_connections acl.handle conn c2 hfc hstrip⟩
        | some channel =>
          rw [hch] at hres
          dsimp only at hres
          split at hres <;>
          · simp only [Option.some.injEq, Prod.mk.injEq] at hres
            obtain ⟨-, hs2⟩ := hres
            subst hs2
            exact ⟨rfl, rfl,
              map_strip_replaceConn s.acl_connections acl.handle conn c2 hfc hstrip⟩

/-- Witness for C10: a frame on an untracked handle is forwarded and the
state is unchanged. -/
theorem handleAclData_frame_condition_witness :
    sampleChan.br_edr_credits = sampleChan.br_edr_credits ∧
    sampleChan.le_credits = sampleChan.le_credits ∧
    sampleChan.acl_connections.map stripConn = sampleChan.acl_connections.map stripConn :=
  handleAclData_frame_condition emptyEnv .fromController
    ⟨5, .firstFlushable, []⟩ sampleChan false sampleChan rfl

/-- C8: a first-fragment boundary flag arriving while recombination is
active first drops the partially-recombined PDU (EndRecombination) and then
processes the frame exactly as from the cleared state, and
StartRecombination from a cleared slot never fails with
FailedPrecondition. -/
theorem first_fragment_restart (env : L2capEnv) (dir : Direction) (acl : AclFrame)
    (s : AclDataChannel) (conn : AclConnection)
    (hf : FindAclConnection s.acl_connections acl.handle = some conn)
    (hb : acl.boundary = .firstNonFlushable ∨ acl.boundary = .firstFlushable)
    (ha : conn.RecombinationActive dir = true) :
    HandleAclData env dir acl s
      = HandleAclData env dir acl (s.withConn acl.handle (conn.EndRecombination dir)) ∧
    (∀ (c : AclConnection) (canAlloc : Nat → Bool) (size : Nat),
      c.RecombinationActive dir = false →
      (c.StartRecombination dir canAlloc size).1 ≠ .failedPrecondition) := by
  constructor
  · have hch : conn.connection_handle = acl.handle :=
      FindAclConnection_handle _ _ _ hf
    have hch1 : (conn.EndRecombination dir).connection_handle = acl.handle := by
      unfold AclConnection.EndRecombination
      rw [handle_setRecomb]
      exact hch
    have hf2 : FindAclConnection
        (s.withConn acl.handle (conn.EndRecombination dir)).acl_connections acl.handle
        = some (conn.EndRecombination dir) :=
      FindAclConnection_replaceConn _ _ conn _ hf hch1
    have hact1 : (conn.EndRecombination dir).RecombinationActive dir = false := by
      unfold AclConnection.RecombinationActive AclConnection.EndRecombination
      rw [getRecomb_setRecomb_same]
      rfl
    have hcl : classify env dir acl conn
        = classify env dir acl (conn.EndRecombination dir) := by
      unfold classify
      rcases hb with hb | hb <;> rw [hb] <;> simp only [ha, hact1, if_true,
        Bool.false_eq_true, if_false]
    have habs : ∀ c2, ((s.withConn acl.handle (conn.EndRecombination dir)).withConn
        acl.handle c2) = s.withConn acl.handle c2 :=
      fun c2 => withConn_withConn s acl.handle _ c2 hch1
    unfold HandleAclData
    rw [hf, hf2]
    dsimp only
    rw [hcl]
    cases hcr : classify env dir acl (conn.EndRecombination dir) with
    | ret b2 c2 =>
      simp only [finishAclData, habs]
    | deliver fr c2 pdu =>
      simp only [finishAclData, habs]
  · intro c canAlloc size hact
    unfold AclConnection.RecombinationActive at hact
    unfold AclConnection.StartRecombination
    simp only [hact, Bool.false_eq_true, if_false]
    split <;> simp

/-- Witness for C8 on the sample state with an active recombination. -/
theorem first_fragment_restart_witness :
    HandleAclData sampleEnv .fromController ⟨7, .firstFlushable, [2, 0, 65, 0, 9, 9]⟩ fragChan
      = HandleAclData sampleEnv .fromController ⟨7, .firstFlushable, [2, 0, 65, 0, 9, 9]⟩
          (fragChan.withConn 7 (fragConn.EndRecombination .fromController)) :=
  (first_fragment_restart sampleEnv .fromController ⟨7, .firstFlushable, [2, 0, 65, 0, 9, 9]⟩
    fragChan fragConn (by decide) (Or.inr rfl) (by decide)).1

theorem setRecomb_setRecomb (c : AclConnection) (dir : Direction)
    (v v2 : Option MultiBufWriter) :
    (c.setRecomb dir v).setRecomb dir v2 = c.setRecomb dir v2 := by
  cases dir <;> rfl

theorem recombineStep_fresh (c : AclConnection) (dir : Direction) (payload : List Nat)
    (L : Nat) (hlen : payload.length < L) :
    recombineStep (c.setRecomb dir (some ⟨L, []⟩)) dir payload
      = ClassifyResult.ret true
          ((c.setRecomb dir (some ⟨L, []⟩)).setRecomb dir (some ⟨L, payload⟩)) := by
  unfold recombineStep AclConnection.RecombineFragment
  rw [getRecomb_setRecomb_same]
  dsimp only
  unfold MultiBufWriter.writeData
  rw [if_neg (by dsimp only; simp only [List.length_nil]; omega)]
  dsimp only
  unfold MultiBufWriter.IsComplete
  dsimp only
  have hb : ((([] : List Nat) ++ payload).length == L) = false := by
    simp only [List.nil_append, beq_eq_false_iff_ne, ne_eq]
    omega
  simp only [hb, Bool.false_eq_true, if_false]
  simp only [List.nil_append]

theorem finish_frag_true (env : L2capEnv) (dir : Direction) (s : AclDataChannel)
    (handle : Nat) (c : AclConnection) (pdu : List Nat) (pl cid : Nat)
    (channel : L2capChannel)
    (hp : parseBasicL2capHeader pdu = some (pl, cid))
    (hch : findL2capChannel env dir handle cid = some channel) :
    finishAclData env dir s handle (ClassifyResult.deliver true c pdu)
      = some (true, s.withConn handle c) := by
  unfold finishAclData
  dsimp only
  rw [hp]
  dsimp only
  rw [hch]
  dsimp only
  cases hr : (match dir with
    | Direction.fromController => channel.handlePduFromController pdu
    | Direction.fromHost => channel.handlePduFromHost pdu) with
  | false => simp [hr]
  | true => simp [hr]

/-- C5: for a CONTINUING_FRAGMENT frame on a tracked connection, if no
recombination is active in the frame's direction, HandleAclData returns
Unhandled (the frame is forwarded) with the state unchanged; if
recombination is active — with the slot in a reachable configuration (it
holds at least the 4-byte L2CAP header written by the first fragment, and
the registry still knows the channel that started it, per the code's own
invariant) — the frame is always consumed (Handled), including when the
channel rejects the completed PDU, in which case the whole recombined PDU
is dropped rather than any fragment forwarded. -/
theorem continuing_fragment_consumption (env : L2capEnv) (dir : Direction)
    (acl : AclFrame) (s : AclDataChannel) (conn : AclConnection)
    (hf : FindAclConnection s.acl_connections acl.handle = some conn)
    (hb : acl.boundary = .continuingFragment) :
    (conn.getRecomb dir = none → HandleAclData env dir acl s = some (false, s)) ∧
    (∀ w, conn.getRecomb dir = some w → 4 ≤ w.data.length →
      (∀ pl cid, parseBasicL2capHeader w.data = some (pl, cid) →
        (findL2capChannel env dir acl.handle cid).isSome = true) →
      ∃ s2, HandleAclData env dir acl s = some (true, s2)) := by
  constructor
  · intro hrec
    have hact : conn.RecombinationActive dir = false := by
      unfold AclConnection.RecombinationActive
      rw [hrec]
      rfl
    unfold HandleAclData
    rw [hf]
    dsimp only
    unfold classify
    rw [hb]
    simp only [hact, Bool.false_eq_true, if_false]
    simp only [finishAclData]
    rw [withConn_self s acl.handle conn hf]
  · intro w hrec hlen hch
    have hact : conn.RecombinationActive dir = true := by
      unfold AclConnection.RecombinationActive
      rw [hrec]
      rfl
    obtain ⟨b0, b1, b2, b3, t, hwdata⟩ := exists_four_cons w.data hlen
    unfold HandleAclData
    rw [hf]
    dsimp only
    unfold classify
    rw [hb]
    simp only [hact, if_true]
    unfold recombineStep AclConnection.RecombineFragment
    rw [hrec]
    dsimp only
    unfold MultiBufWriter.writeData
    by_cases hover : w.data.length + acl.payload.length > w.target_size
    · rw [if_pos hover]
      exact ⟨_, rfl⟩
    · rw [if_neg hover]
      dsimp only
      by_cases hcomp : ({ w with data := w.data ++ acl.payload } : MultiBufWriter).IsComplete
      · simp only [hcomp, if_true]
        rw [hwdata]
        dsimp only [MultiBufWriter.TakeMultiBuf]
        simp only [List.cons_append]
        have hsome := hch (b0 + 256 * b1) (b2 + 256 * b3) (by rw [hwdata]; rfl)
        cases hfc2 : findL2capChannel env dir acl.handle (b2 + 256 * b3) with
        | none =>
          rw [hfc2] at hsome
          simp at hsome
        | some channel =>
          refine ⟨s.withConn acl.handle (conn.EndRecombination dir), ?_⟩
          exact finish_frag_true env dir s acl.handle (conn.EndRecombination dir)
            (b0 :: b1 :: b2 :: b3 :: (t ++ acl.payload))
            (b0 + 256 * b1) (b2 + 256 * b3) channel rfl hfc2
      · simp only [hcomp, Bool.false_eq_true, if_false]
        exact ⟨_, rfl⟩

/-- Witness for C5: a continuation on the sample active recombination is
consumed. -/
theorem continuing_fragment_consumption_witness :
    ∃ s2, HandleAclData sampleEnv .fromController ⟨7, .continuingFragment, [1, 2]⟩ fragChan
      = some (true, s2) :=
  (continuing_fragment_consumption sampleEnv .fromController
      ⟨7, .continuingFragment, [1, 2]⟩ fragChan fragConn (by decide) rfl).2
    sampleWriter rfl (by decide)
    (by
      intro pl cid hp
      have h2 : ((20 : Nat), (65 : Nat)) = (pl, cid) :=
        Option.some.inj ((rfl :
          parseBasicL2capHeader sampleWriter.data = some (20, 65)).symm.trans hp)
      have h4 : cid = 65 := (congrArg Prod.snd h2).symm
      rw [h4]
      decide)

/-- C7: for a first ACL frame (either first flag, no stale recombination)
addressed to a recognized channel, with l2cap_frame_length the uint16 value
of 4 + pdu_length: shorter-than-payload PDUs are consumed and dropped;
an exact match is delivered to the channel as a complete non-fragment PDU
(the frame's disposition is the channel's verdict); a longer PDU starts
recombination with target l2cap_frame_length and consumes the frame, while
a missing rx allocator or a failed allocation forwards the frame. -/
theorem first_fragment_classification (env : L2capEnv) (dir : Direction)
    (acl : AclFrame) (s : AclDataChannel) (conn : AclConnection) (pl cid : Nat)
    (channel : L2capChannel)
    (hf : FindAclConnection s.acl_connections acl.handle = some conn)
    (hb : acl.boundary = .firstNonFlushable ∨ acl.boundary = .firstFlushable)
    (hna : conn.RecombinationActive dir = false)
    (hp : parseBasicL2capHeader acl.payload = some (pl, cid))
    (hch : findL2capChannel env dir acl.handle cid = some channel) :
    ((4 + pl) % 65536 < acl.payload.length →
      HandleAclData env dir acl s = some (true, s)) ∧
    ((4 + pl) % 65536 = acl.payload.length →
      HandleAclData env dir acl s
        = some ((match dir with
            | Direction.fromController => channel.handlePduFromController acl.payload
            | Direction.fromHost => channel.handlePduFromHost acl.payload), s)) ∧
    (acl.payload.length < (4 + pl) % 65536 →
      (channel.rx_allocator = none → HandleAclData env dir acl s = some (false, s)) ∧
      (∀ canAlloc, channel.rx_allocator = some canAlloc →
        (canAlloc ((4 + pl) % 65536) = false →
          HandleAclData env dir acl s = some (false, s)) ∧
        (canAlloc ((4 + pl) % 65536) = true →
          HandleAclData env dir acl s
            = some (true, s.withConn acl.handle
                (conn.setRecomb dir (some ⟨(4 + pl) % 65536, acl.payload⟩)))))) := by
  have hred : HandleAclData env dir acl s
      = finishAclData env dir s acl.handle (classifyFirst env dir acl conn) := by
    unfold HandleAclData
    rw [hf]
    try dsimp only
    unfold classify
    rcases hb with hb | hb <;> rw [hb] <;>
      simp only [hna, Bool.false_eq_true, if_false]
  have hcf : classifyFirst env dir acl conn
      = (if (4 + pl) % 65536 < acl.payload.length then ClassifyResult.ret true conn
         else if (4 + pl) % 65536 = acl.payload.length then
           ClassifyResult.deliver false conn acl.payload
         else
           match channel.rx_allocator with
           | none => ClassifyResult.ret false conn
           | some canAlloc =>
             match conn.StartRecombination dir canAlloc ((4 + pl) % 65536) with
             | (Status.ok, c2) => recombineStep c2 dir acl.payload
             | (_, c2) => ClassifyResult.ret false c2) := by
    unfold classifyFirst
    rw [hp]
    try dsimp only
    rw [hch]
  have hg : (conn.getRecomb dir).isSome = false := hna
  refine ⟨?_, ?_, ?_⟩
  · intro h1
    rw [hred, hcf, if_pos h1]
    simp only [finishAclData]
    rw [withConn_self s acl.handle conn hf]
  · intro h2
    rw [hred, hcf, if_neg (by omega), if_pos h2]
    unfold finishAclData
    try dsimp only
    rw [hp]
    try dsimp only
    rw [hch]
    try dsimp only
    simp only [Bool.false_and, Bool.false_eq_true, if_false]
    rw [withConn_self s acl.handle conn hf]
    cases dir <;> rfl
  · intro h3
    have hlt : ¬(4 + pl) % 65536 < acl.payload.length := by omega
    have hne : ¬(4 + pl) % 65536 = acl.payload.length := by omega
    constructor
    · intro hra
      rw [hred, hcf, if_neg hlt, if_neg hne, hra]
      simp only [finishAclData]
      rw [withConn_self s acl.handle conn hf]
    · intro canAlloc hra
      constructor
      · intro hca
        rw [hred, hcf, if_neg hlt, if_neg hne, hra]
        try dsimp only
        unfold AclConnection.StartRecombination
        simp only [hg, Bool.false_eq_true, if_false, hca]
        try dsimp only
        simp only [finishAclData]
        rw [withConn_self s acl.handle conn hf]
      · intro hca
        rw [hred, hcf, if_neg hlt, if_neg hne, hra]
        try dsimp only
        unfold AclConnection.StartRecombination
        simp only [hg, Bool.false_eq_true, if_false, hca, eq_self_iff_true, if_true]
        try dsimp only
        rw [recombineStep_fresh conn dir acl.payload ((4 + pl) % 65536) h3]
        simp only [finishAclData]
        simp only [setRecomb_setRecomb]

/-- Witness for C7: a complete (non-fragment) PDU on handle 7, CID 65 is
delivered and consumed. -/
theorem first_fragment_classification_witness :
    HandleAclData sampleEnv .fromController
        ⟨7, .firstFlushable, [2, 0, 65, 0, 9, 9]⟩ firstChan
      = some (true, firstChan) := by
  have h := (first_fragment_classification sampleEnv .fromController
      ⟨7, .firstFlushable, [2, 0, 65, 0, 9, 9]⟩ firstChan ⟨.le, 7, 0, none, none⟩
      2 65 sampleL2capChannel (by decide) (Or.inr rfl) rfl rfl rfl).2.1 (by decide)
  exact h

end AclProxy
